import Mathlib

/-!
Verification development for the combined ECIL + EGPS tender-extraction
pipeline (`app.py`).  The Python program is shallowly embedded: DOM rows,
action links and detail pages appear as explicit input data; pure record
manipulation (row filtering, document harvesting and deduplication, the
history store, diff classification and the report aggregation) is
translated function by function.
-/

namespace TenderApp

/-- A harvested document entry: display name and absolute URL.  Mirrors the
Python pair `(name, url)` kept in `doc_links`. -/
structure Doc where
  name : String
  url : String
deriving DecidableEq, Repr

/-- One scraped tender record.  Mirrors the 8-element Python list
`[tender_no, centre, description, closing_date, published_date,
opening_date, link, doc_links]` appended by both scrapers. -/
structure Entry where
  tender_no : String
  centre : String
  description : String
  closing_date : String
  published_date : String
  opening_date : String
  link : String
  docs : List Doc
deriving DecidableEq, Repr

/-- Python `dict` lookup, on an insertion-ordered association list.  Keys in
a Python dict are unique, so first-match lookup agrees with dict lookup. -/
def dictGet {α : Type} : List (String × α) → String → Option α
  | [], _ => none
  | (k, v) :: rest, key => if k = key then some v else dictGet rest key

/-- Python `d[key] = val`: replace in place when the key exists (keeping its
position, as CPython dicts do), otherwise append at the end. -/
def dictInsert {α : Type} (key : String) (val : α) : List (String × α) → List (String × α)
  | [] => [(key, val)]
  | (k, v) :: rest =>
    if k = key then (key, val) :: rest else (k, v) :: dictInsert key val rest

/-- Apply `f` to the value stored at `key`, leaving the map unchanged when
the key is absent.  Used for the in-place mutation `history[source][...] = v`
performed on an already-present source key. -/
def dictModify {α : Type} (key : String) (f : α → α) : List (String × α) → List (String × α)
  | [] => []
  | (k, v) :: rest =>
    if k = key then (k, f v) :: rest else (k, v) :: dictModify key f rest

/-- A per-tender history snapshot: string fields such as `description`,
`closing_date`, `centre` and `last_seen`. -/
abbrev FieldMap := List (String × String)

/-- Per-source history: tender number to snapshot. -/
abbrev TenderMap := List (String × FieldMap)

/-- The whole persisted history: source name to per-source map. -/
abbrev HistoryMap := List (String × TenderMap)

/-!
History persistence.  `save_tender_history` serialises the history with
`json.dump` and `load_tender_history` reads it back with `json.load`.  The
file contents are modelled as the parsed JSON tree (string and object
nodes are the only constructors the history ever uses); an absent file is
`none`, and a file that fails to decode into the nested string-map shape
plays the role of a parse error, for which the code returns the empty
two-source skeleton.
-/

/-- JSON values as used by the persisted history file. -/
inductive Json where
  | str : String → Json
  | obj : List (String × Json) → Json

/-- Encode a field snapshot as a JSON object of strings. -/
def encFieldMap (m : FieldMap) : Json :=
  Json.obj (m.map fun p => (p.1, Json.str p.2))

/-- Encode a per-source tender map. -/
def encTenderMap (m : TenderMap) : Json :=
  Json.obj (m.map fun p => (p.1, encFieldMap p.2))

/-- Encode the full history. -/
def encHistoryMap (h : HistoryMap) : Json :=
  Json.obj (h.map fun p => (p.1, encTenderMap p.2))

/-- Decode an object body whose values must all be strings. -/
def decStrPairs : List (String × Json) → Option FieldMap
  | [] => some []
  | (k, Json.str s) :: rest => (decStrPairs rest).map (fun r => (k, s) :: r)
  | _ => none

/-- Decode a field snapshot. -/
def decFieldMap : Json → Option FieldMap
  | Json.obj l => decStrPairs l
  | _ => none

/-- Decode an object body of field snapshots. -/
def decTenderPairs : List (String × Json) → Option TenderMap
  | [] => some []
  | (k, j) :: rest =>
    match decFieldMap j, decTenderPairs rest with
    | some fm, some r => some ((k, fm) :: r)
    | _, _ => none

/-- Decode a per-source tender map. -/
def decTenderMap : Json → Option TenderMap
  | Json.obj l => decTenderPairs l
  | _ => none

/-- Decode an object body of per-source maps. -/
def decHistoryPairs : List (String × Json) → Option HistoryMap
  | [] => some []
  | (k, j) :: rest =>
    match decTenderMap j, decHistoryPairs rest with
    | some tm, some r => some ((k, tm) :: r)
    | _, _ => none

/-- Decode the full history. -/
def decHistoryMap : Json → Option HistoryMap
  | Json.obj l => decHistoryPairs l
  | _ => none

/-- The empty two-source skeleton returned when no usable history exists. -/
def emptyHistory : HistoryMap := [("ECIL", []), ("EGPS", [])]

/-- `load_tender_history` (app.py lines 91-99): return the parsed file when
it exists and decodes, the skeleton otherwise. -/
def load_tender_history (file : Option Json) : HistoryMap :=
  match file with
  | none => emptyHistory
  | some j => (decHistoryMap j).getD emptyHistory

/-- `save_tender_history` (app.py lines 101-106): serialise the history as
the new file contents. -/
def save_tender_history (history : HistoryMap) : Json :=
  encHistoryMap history

/-- A detected closing-date change.  Mirrors the Python dict appended by
`check_date_changes`. -/
structure DateChange where
  tender_no : String
  old_date : String
  new_date : String
  source : String
  description : String
deriving DecidableEq, Repr

/-- The loop body of `check_date_changes` (app.py lines 110-123) for one
current record: a change is emitted when the tender number is in the
history and the recorded and current closing dates are both non-empty and
differ. -/
def dateChangeOf (history : TenderMap) (source : String) (entry : Entry) : Option DateChange :=
  match dictGet history entry.tender_no with
  | none => none
  | some fields =>
    let old_closing := (dictGet fields "closing_date").getD ""
    if old_closing ≠ "" ∧ entry.closing_date ≠ "" ∧ old_closing ≠ entry.closing_date then
      some ⟨entry.tender_no, old_closing, entry.closing_date, source, entry.description⟩
    else none

/-- `check_date_changes` (app.py lines 108-124), with `history[source]`
passed directly as `history`. -/
def check_date_changes (current_data : List Entry) (history : TenderMap) (source : String) :
    List DateChange :=
  current_data.filterMap (dateChangeOf history source)

/-- The snapshot written for an ECIL tender (app.py lines 131-135). -/
def ecilSnapshot (entry : Entry) (ts : String) : FieldMap :=
  [("description", entry.description), ("closing_date", entry.closing_date), ("last_seen", ts)]

/-- The snapshot written for an EGPS tender (app.py lines 139-144). -/
def egpsSnapshot (entry : Entry) (ts : String) : FieldMap :=
  [("centre", entry.centre), ("description", entry.description),
   ("closing_date", entry.closing_date), ("last_seen", ts)]

/-- `update_tender_history` (app.py lines 126-146) applied to the loaded
history: every seen tender's entry is overwritten wholesale with the
current snapshot plus the fresh timestamp `ts`. -/
def update_tender_history (history : HistoryMap) (ecil_data egps_data : List Entry)
    (ts : String) : HistoryMap :=
  let h1 := ecil_data.foldl
    (fun h entry => dictModify "ECIL" (dictInsert entry.tender_no (ecilSnapshot entry ts)) h)
    history
  egps_data.foldl
    (fun h entry => dictModify "EGPS" (dictInsert entry.tender_no (egpsSnapshot entry ts)) h)
    h1

/-- The main block's effect on the persisted history file (app.py lines
699-1044): the whole pipeline runs inside one `try`.  The report-building
stage (modelled by its outcome `excelResult`) runs strictly before
`update_tender_history`; an exception escaping it is caught at top level
and the run aborts with the file untouched.  On success the update loads
the file, overwrites the seen entries and saves. -/
def runMain (historyFile : Option Json) (ecil_data egps_data : List Entry)
    (excelResult : Except String Unit) (ts : String) : Option Json :=
  match excelResult with
  | Except.error _ => historyFile
  | Except.ok _ =>
    some (save_tender_history
      (update_tender_history (load_tender_history historyFile) ecil_data egps_data ts))

/-! Round-trip lemmas for the history encoding. -/

theorem decStrPairs_enc (m : FieldMap) :
    decStrPairs (m.map fun p => (p.1, Json.str p.2)) = some m := by
  induction m with
  | nil => rfl
  | cons p rest ih => simp [decStrPairs, ih]

theorem decFieldMap_enc (m : FieldMap) : decFieldMap (encFieldMap m) = some m := by
  simp [decFieldMap, encFieldMap, decStrPairs_enc]

theorem decTenderPairs_enc (m : TenderMap) :
    decTenderPairs (m.map fun p => (p.1, encFieldMap p.2)) = some m := by
  induction m with
  | nil => rfl
  | cons p rest ih => simp [decTenderPairs, decFieldMap_enc, ih]

theorem decTenderMap_enc (m : TenderMap) : decTenderMap (encTenderMap m) = some m := by
  simp [decTenderMap, encTenderMap, decTenderPairs_enc]

theorem decHistoryPairs_enc (h : HistoryMap) :
    decHistoryPairs (h.map fun p => (p.1, encTenderMap p.2)) = some h := by
  induction h with
  | nil => rfl
  | cons p rest ih => simp [decHistoryPairs, decTenderMap_enc, ih]

theorem decHistoryMap_enc (h : HistoryMap) : decHistoryMap (encHistoryMap h) = some h := by
  simp [decHistoryMap, encHistoryMap, decHistoryPairs_enc]

/-!
Scraper embedding.  A listing row is the sequence of its cell texts plus
the DOM material reachable from it (detail-page links for the document
harvesters, and whether the secondary window actually opened).  The
regex-based published-date extraction and the `onclick` regex capture are
DOM externals and appear as input fields carrying their result.
-/

/-- Whether the character list `p` is an initial segment of `s`. -/
def startsList : List Char → List Char → Bool
  | [], _ => true
  | _ :: _, [] => false
  | c :: cs, d :: ds => c == d && startsList cs ds

/-- Whether the character list `p` occurs inside `s` at some position. -/
def subInAux (p : List Char) : List Char → Bool
  | [] => startsList p []
  | c :: rest => startsList p (c :: rest) || subInAux p rest

/-- Python `sub in s` substring test. -/
def containsSub (s sub : String) : Bool :=
  subInAux sub.data s.data

/-- Python `str.strip()` for whitespace: drop leading and trailing
whitespace characters. -/
def strTrim (s : String) : String :=
  ⟨((((s.data.dropWhile Char.isWhitespace).reverse).dropWhile Char.isWhitespace).reverse)⟩

/-- Python `str.lower()`. -/
def strToLower (s : String) : String :=
  ⟨s.data.map Char.toLower⟩

/-- Python `str.startswith(p)`. -/
def strStartsWith (s p : String) : Bool :=
  startsList p.data s.data

/-- Python `str.isdigit` restricted to ASCII digits: non-empty and all
characters are digits. -/
def isAllDigits (s : String) : Bool :=
  s != "" && s.data.all Char.isDigit

/-- Python `str.replace(pat, sub)` on character lists, with enough fuel to
process the whole input (each step consumes at least one character). -/
def replaceFuel (pat sub : List Char) : Nat → List Char → List Char
  | 0, s => s
  | _ + 1, [] => []
  | n + 1, c :: rest =>
    if pat ≠ [] ∧ startsList pat (c :: rest) = true then
      sub ++ replaceFuel pat sub n (List.drop (pat.length - 1) rest)
    else c :: replaceFuel pat sub n rest

/-- Python `str.replace(pat, sub)`. -/
def strReplace (s pat sub : String) : String :=
  ⟨replaceFuel pat.data sub.data s.data.length s.data⟩

/-- The piece of `s` after its last `/` (Python `s.split("/")[-1]`). -/
def lastComponentAux : List Char → List Char → List Char
  | [], acc => acc.reverse
  | c :: rest, acc =>
    if c = '/' then lastComponentAux rest [] else lastComponentAux rest (c :: acc)

/-- Last path component of a URL with the PDF extension removed, as in
`url.split("/")[-1].replace(".pdf", "").replace(".PDF", "")`. -/
def urlFilename (url : String) : String :=
  strReplace (strReplace ⟨lastComponentAux url.data []⟩ ".pdf" "") ".PDF" ""

/-- One candidate PDF anchor on an ECIL detail page: its visible text and
its `href`. -/
structure RawLink where
  text : String
  href : String
deriving DecidableEq, Repr

/-- Name resolution in `extract_ecil_documents` (app.py lines 169-171):
empty or generic link text is replaced by the filename from the URL. -/
def ecilDocName (text url : String) : String :=
  let name := strTrim text
  if name == "" || ["--NA--", "Download", "View"].contains name then urlFilename url else name

/-- One iteration of the ECIL document loop (app.py lines 166-177): keep
the link when the URL is non-empty, the name does not contain `--NA--` and
the URL is not already present. -/
def ecilDocStep (acc : List Doc) (l : RawLink) : List Doc :=
  let url := l.href
  let name := ecilDocName l.text url
  if url != "" && !containsSub name "--NA--" && !((acc.map Doc.url).contains url) then
    acc ++ [⟨name, url⟩]
  else acc

/-- `extract_ecil_documents` (app.py lines 151-183) over the page's
candidate PDF anchors. -/
def extract_ecil_documents (links : List RawLink) : List Doc :=
  links.foldl ecilDocStep []

/-- The identifier rejection test of `scrape_ecil` (app.py lines 425-433):
empty, a known non-data marker, or a short all-numeric token. -/
def ecilRejectId (tender_no : String) : Bool :=
  tender_no == "" ||
  containsSub tender_no "NIT" ||
  containsSub tender_no "Section" ||
  containsSub tender_no "Tender" ||
  ["no.", "number", "tender no."].contains (strToLower tender_no) ||
  (isAllDigits tender_no && tender_no.length ≤ 2)

/-- One ECIL listing row: cell texts, the detail link found in the tender
number cell (empty when absent), the PDF anchors of the detail page, and
whether the secondary window opened. -/
structure EcilRow where
  cells : List String
  link : String
  pdfLinks : List RawLink
  winOpens : Bool
deriving DecidableEq, Repr

/-- Row processing of `scrape_ecil` (app.py lines 408-492): rows with
fewer than six cells are skipped, the identifier and description guards
reject header and artifact rows, and the surviving row yields one record
whose documents come from the detail page when its window opened. -/
def ecilRowEntry (r : EcilRow) : Option Entry :=
  if r.cells.length ≥ 6 then
    let tender_no := strTrim (r.cells.getD 1 "")
    if ecilRejectId tender_no then none
    else if tender_no.length < 5 then none
    else
      let published_date := if r.cells.length > 2 then strTrim (r.cells.getD 2 "") else ""
      let description := if r.cells.length > 3 then strTrim (r.cells.getD 3 "") else ""
      let due_date := if r.cells.length > 5 then strTrim (r.cells.getD 5 "") else ""
      if description == "" || description.length < 5 then none
      else
        let doc_links :=
          if r.link != "" && r.winOpens then extract_ecil_documents r.pdfLinks else []
        some ⟨tender_no, "-----", description, due_date, published_date, "-----", r.link, doc_links⟩
  else none

/-- The ECIL crawl restricted to its data flow: one record per accepted
row, in crawl order. -/
def scrape_ecil_rows (rows : List EcilRow) : List Entry :=
  rows.filterMap ecilRowEntry

/-- Base origin prefixed to relative EGPS action paths. -/
def isroBase : String := "https://eproc.isro.gov.in"

/-- One anchor of the EGPS action cell `cols[5]`. -/
structure EgpsAction where
  text : String
  href : String
  data_url : String
deriving DecidableEq, Repr

/-- The three links singled out by the action scan of `scrape_egps`. -/
structure ActionScan where
  tender_pdf : String
  view_link : String
  corrigendum_link : String
deriving DecidableEq, Repr

/-- One iteration of the action scan (app.py lines 588-601). -/
def scanActionsStep (s : ActionScan) (a : EgpsAction) : ActionScan :=
  let text := strTrim a.text
  let s1 := if containsSub text "Tender Document" && a.href != "" then
    { s with tender_pdf := a.href } else s
  let s2 := if containsSub a.data_url "homeTenderView" then
    { s1 with view_link := isroBase ++ a.data_url } else s1
  if containsSub a.data_url "viewCorrigendum" || containsSub text "Corrigendum" then
    if a.data_url != "" then { s2 with corrigendum_link := isroBase ++ a.data_url }
    else { s2 with corrigendum_link := a.href }
  else s2

/-- Scan of the action cell's anchors; the last matching anchor wins for
each slot, as Python reassignment does. -/
def scanActions (acts : List EgpsAction) : ActionScan :=
  acts.foldl scanActionsStep ⟨"", "", ""⟩

/-- One candidate document anchor on an EGPS view or corrigendum page.
`onclick_match` is the capture of the `viewDocument`/`downloadDocument`
regex on the `onclick` attribute (empty when the attribute is absent or
does not match), and `cellTexts` holds the texts of the first three cells
of the anchor's table row, used as name fallbacks. -/
structure EgpsLink where
  text : String
  href : String
  data_url : String
  onclick_match : String
  cellTexts : List String
deriving DecidableEq, Repr

/-- URL resolution (app.py lines 272-278): `href` first, then the data
attribute, then the onclick capture, each prefixed with the base origin. -/
def egpsResolveUrl (l : EgpsLink) : String :=
  if l.href != "" then l.href
  else if l.data_url != "" then isroBase ++ l.data_url
  else if l.onclick_match != "" then isroBase ++ l.onclick_match
  else ""

/-- Candidate-keeping test (app.py lines 280-284). -/
def egpsKeepUrl (url : String) : Bool :=
  url != "" &&
  (containsSub (strToLower url) ".pdf" || containsSub url "viewDocument" ||
   containsSub url "downloadDocument")

/-- First of the first three row cells whose trimmed text is non-empty and
not a generic label (app.py lines 287-293). -/
def egpsCellName (cells : List String) : Option String :=
  (cells.take 3).findSome? fun c =>
    let t := strTrim c
    if t != "" && !(["View", "Download", "Open", ""].contains t) then some t else none

/-- Filename-derived name with the literal `Document` placeholder
(app.py line 297). -/
def egpsUrlName (url : String) : String :=
  let fn := urlFilename url
  if fn == "" then "Document" else fn

/-- Name resolution fallback chain (app.py lines 285-297): link text, then
a non-generic sibling cell, then the filename, then `Document`. -/
def egpsDocName (l : EgpsLink) (url : String) : String :=
  let text := strTrim l.text
  if text == "" || ["View", "Download", "Open", "Click Here"].contains text then
    let text1 := match egpsCellName l.cellTexts with
      | some t => t
      | none => text
    if text1 == "" || ["View", "Download", "Open"].contains text1 then egpsUrlName url
    else text1
  else text

/-- Origin labels (app.py lines 299-302): corrigendum-page names get a
`Corrigendum - ` marker, view-page names a `View - ` marker, unless
already carrying one. -/
def egpsLabel (page_type text : String) : String :=
  if page_type == "Corrigendum" && !(strStartsWith text "Corrigendum") then "Corrigendum - " ++ text
  else if page_type == "View" && !(strStartsWith text "View") then "View - " ++ text
  else text

/-- One iteration of the EGPS document loop (app.py lines 265-309). -/
def egpsDocStep (page_type : String) (acc : List Doc) (l : EgpsLink) : List Doc :=
  let url := egpsResolveUrl l
  if egpsKeepUrl url then
    let text := egpsLabel page_type (egpsDocName l url)
    if (acc.map Doc.url).contains url then acc else acc ++ [⟨text, url⟩]
  else acc

/-- `extract_egps_documents_and_published_date` (app.py lines 188-316)
restricted to its data flow: the document list harvested from the page's
candidate anchors, paired with the page's published date (whose regex
extraction is modelled by the input `page_pub`). -/
def extract_egps_documents_and_published_date (links : List EgpsLink) (page_pub : String)
    (page_type : String) : List Doc × String :=
  (links.foldl (egpsDocStep page_type) [], page_pub)

/-- Merging harvested documents into a record's existing list (app.py
lines 623-625 and 644-646): append each incoming document unless its URL
is already present. -/
def mergeDocs (acc incoming : List Doc) : List Doc :=
  incoming.foldl (fun a d => if (a.map Doc.url).contains d.url then a else a ++ [d]) acc

/-- One EGPS listing row: cell texts, the anchors of the action cell, the
candidate anchors and published date of the view page, the candidate
anchors of the corrigendum page, and whether each secondary window
opened. -/
structure EgpsRow where
  cells : List String
  actions : List EgpsAction
  viewLinks : List EgpsLink
  viewPub : String
  corrLinks : List EgpsLink
  viewOpens : Bool
  corrOpens : Bool
deriving DecidableEq, Repr

/-- Row processing of `scrape_egps` (app.py lines 566-668): rows with
fewer than six cells are skipped; every other row yields one record.  The
main tender PDF is added first, then the view-page documents, then the
corrigendum documents, each merge deduplicating by URL. -/
def egpsRowEntry (r : EgpsRow) : Option Entry :=
  if r.cells.length < 6 then none
  else
    let tender_no := strTrim (r.cells.getD 0 "")
    let centre := strTrim (r.cells.getD 1 "")
    let description := strTrim (r.cells.getD 2 "")
    let closing := strTrim (r.cells.getD 3 "")
    let opening := strTrim (r.cells.getD 4 "")
    let s := scanActions r.actions
    let docs0 : List Doc := if s.tender_pdf != "" then [⟨"Tender Document", s.tender_pdf⟩] else []
    let viewRes := extract_egps_documents_and_published_date r.viewLinks r.viewPub "View"
    let docs1 := if s.view_link != "" && r.viewOpens then mergeDocs docs0 viewRes.1 else docs0
    let published_date := if s.view_link != "" && r.viewOpens then viewRes.2 else ""
    let corrRes := extract_egps_documents_and_published_date r.corrLinks "" "Corrigendum"
    let docs2 := if s.corrigendum_link != "" && r.corrOpens then mergeDocs docs1 corrRes.1 else docs1
    some ⟨tender_no, centre, description, closing, published_date, opening, s.view_link, docs2⟩

/-- The EGPS crawl restricted to its data flow: one record per row with at
least six cells, in crawl order. -/
def scrape_egps_rows (rows : List EgpsRow) : List Entry :=
  rows.filterMap egpsRowEntry

/-!
Diff classification and aggregation (app.py lines 715-828).  `histE` and
`histG` are `history["ECIL"]` and `history["EGPS"]` of the loaded history.
-/

/-- A classified record: the Python list `[status, source] + entry`. -/
structure CEntry where
  status : String
  src : String
  entry : Entry
deriving DecidableEq, Repr

/-- The `changed_tenders` set (app.py lines 734-736): the `(source,
tender_no)` pairs of all detected date changes of both sources. -/
def changedTenders (ecil_data egps_data : List Entry) (histE histG : TenderMap) :
    List (String × String) :=
  (check_date_changes ecil_data histE "ECIL" ++ check_date_changes egps_data histG "EGPS").map
    fun c => (c.source, c.tender_no)

/-- The classification loop for one source (app.py lines 745-761),
returning the `new`, `changed` and `existing` buckets in crawl order. -/
def classifyLoop (hist : TenderMap) (src : String) (ch : List (String × String)) :
    List Entry → List CEntry × List CEntry × List CEntry
  | [] => ([], [], [])
  | e :: rest =>
    let r := classifyLoop hist src ch rest
    if dictGet hist e.tender_no = none then (⟨"NEW", src, e⟩ :: r.1, r.2.1, r.2.2)
    else if (src, e.tender_no) ∈ ch then (r.1, ⟨"DATE CHANGED", src, e⟩ :: r.2.1, r.2.2)
    else (r.1, r.2.1, ⟨"EXISTING", src, e⟩ :: r.2.2)

/-- The status the classification loop assigns to one record. -/
def statusOf (hist : TenderMap) (src : String) (ch : List (String × String)) (e : Entry) :
    String :=
  if dictGet hist e.tender_no = none then "NEW"
  else if (src, e.tender_no) ∈ ch then "DATE CHANGED"
  else "EXISTING"

/-- Tag every record of a source with its status and source label. -/
def tagAll (hist : TenderMap) (src : String) (ch : List (String × String)) (l : List Entry) :
    List CEntry :=
  l.map fun e => ⟨statusOf hist src ch e, src, e⟩

/-- `all_tenders` (app.py lines 767-769): new records of both sources
first, then changed, then existing, ECIL before EGPS inside each block. -/
def combinedPipeline (ecil_data egps_data : List Entry) (histE histG : TenderMap) :
    List CEntry :=
  let ch := changedTenders ecil_data egps_data histE histG
  let rE := classifyLoop histE "ECIL" ch ecil_data
  let rG := classifyLoop histG "EGPS" ch egps_data
  rE.1 ++ rG.1 ++ rE.2.1 ++ rG.2.1 ++ rE.2.2 ++ rG.2.2

/-- Python `max(l, default=0)` for natural numbers. -/
def listMax (l : List Nat) : Nat :=
  l.foldl max 0

/-- Per-source maximum document count (app.py lines 707-708). -/
def maxDocsOfList (data : List Entry) : Nat :=
  listMax (data.map fun e => e.docs.length)

/-- `max_docs` (app.py line 709). -/
def maxDocsOf (ecil_data egps_data : List Entry) : Nat :=
  max (maxDocsOfList ecil_data) (maxDocsOfList egps_data)

/-- The per-record document slots (app.py lines 802-808): `max_docs`
name/link pairs, empty beyond the record's actual documents. -/
def docSlots (max_docs : Nat) (docs : List Doc) : List String :=
  ((List.range max_docs).map fun i =>
    match docs.get? i with
    | some d => [d.name, d.url]
    | none => ["", ""]).flatten

/-- One report row (app.py lines 790-810). -/
def buildRow (max_docs : Nat) (ce : CEntry) : List String :=
  [ce.status, ce.src, ce.entry.tender_no, ce.entry.published_date, ce.entry.opening_date,
   ce.entry.closing_date, ce.entry.centre, ce.entry.description, ce.entry.link] ++
  docSlots max_docs ce.entry.docs

/-- The nine base column names (app.py lines 812-822). -/
def baseColumns : List String :=
  ["Status", "Source", "Tender Number", "Published Date", "Bid Opening Date",
   "Bid Closing Date", "Centre/Organization", "Description", "Tender Link"]

/-- The full column manifest (app.py lines 812-826). -/
def columnsFor (max_docs : Nat) : List String :=
  baseColumns ++ ((List.range max_docs).map fun i =>
    ["Document " ++ toString (i + 1) ++ " Name",
     "Document " ++ toString (i + 1) ++ " Link"]).flatten

/-!
Window discipline (app.py lines 34-50, 460-475 and 607-653).  The browsing
session is a list of open window handles plus the current handle; the main
window is handle 0 and the secondary window, when opened, is handle 1.
Window primitives acting on live handles are modelled as effective; the
episode's branch points are whether the JS `window.open` produced a handle
and whether the extractor call raises (the real extractors swallow their
exceptions, but the enclosing `try` also guards that path, so it is part
of the model).
-/

/-- The browsing session: open handles and the current handle. -/
structure WinState where
  windows : List Nat
  current : Nat
deriving DecidableEq, Repr

/-- The session with only the main window open and focused. -/
def cleanState : WinState := ⟨[0], 0⟩

/-- `safe_close_extra_windows` (app.py lines 34-50): close every handle
other than the main window, then switch back to it. -/
def safe_close_extra_windows (st : WinState) (main : Nat) : WinState :=
  ⟨st.windows.filter (fun w => w == main), main⟩

/-- Number of open secondary windows. -/
def secondaryCount (st : WinState) (main : Nat) : Nat :=
  (st.windows.filter (fun w => w != main)).length

/-- The state trace of one detail-view episode (the ECIL block at app.py
lines 462-475; the EGPS view and corrigendum blocks are identical in
shape).  `openFails` models an exception from the `window.open` script,
`opens` whether a handle appeared, `extractorFails` an exception escaping
the extractor call; the exception paths run the cleanup helper. -/
def detailEpisode (st : WinState) (main fresh : Nat) (openFails opens extractorFails : Bool) :
    List WinState :=
  if openFails then
    [st, safe_close_extra_windows st main]
  else
    let st1 := if opens then WinState.mk (st.windows ++ [fresh]) st.current else st
    if st1.windows.length > 1 then
      let st2 := WinState.mk st1.windows ((st1.windows.getLastD main))
      if extractorFails then
        [st, st1, st2, safe_close_extra_windows st2 main]
      else
        let st3 := WinState.mk (st2.windows.erase st2.current) st2.current
        [st, st1, st2, st3, ⟨st3.windows, main⟩]
    else
      [st, st1]

/-- The window trace of one EGPS row: the view episode followed by the
corrigendum episode, the second starting from the first one's final
state. -/
def egpsRowWindowTrace (a1 a2 a3 b1 b2 b3 : Bool) : List WinState :=
  let t1 := detailEpisode cleanState 0 1 a1 a2 a3
  t1 ++ detailEpisode (t1.getLastD cleanState) 0 1 b1 b2 b3

/-! Dictionary lemmas. -/

theorem dictGet_dictInsert {α : Type} (k : String) (v : α) (m : List (String × α)) (q : String) :
    dictGet (dictInsert k v m) q = if k = q then some v else dictGet m q := by
  induction m with
  | nil => simp [dictInsert, dictGet]
  | cons p rest ih =>
    obtain ⟨k0, v0⟩ := p
    by_cases h0 : k0 = k
    · subst h0
      simp only [dictInsert, if_pos rfl, dictGet]
      by_cases hq : k0 = q <;> simp [hq]
    · simp only [dictInsert, if_neg h0, dictGet]
      by_cases hq : k0 = q
      · subst hq
        have : k ≠ k0 := fun h => h0 h.symm
        simp [this]
      · simp [hq, ih]

theorem dictGet_dictModify {α : Type} (k : String) (f : α → α) (m : List (String × α))
    (q : String) :
    dictGet (dictModify k f m) q = if k = q then (dictGet m q).map f else dictGet m q := by
  induction m with
  | nil => simp [dictModify, dictGet]
  | cons p rest ih =>
    obtain ⟨k0, v0⟩ := p
    by_cases h0 : k0 = k
    · subst h0
      simp only [dictModify, if_pos rfl, dictGet]
      by_cases hq : k0 = q <;> simp [hq]
    · simp only [dictModify, if_neg h0, dictGet]
      by_cases hq : k0 = q
      · subst hq
        have : k ≠ k0 := fun h => h0 h.symm
        simp [this]
      · simp [hq, ih]

theorem dictModify_id {α : Type} (k : String) (m : List (String × α)) :
    dictModify k (fun v => v) m = m := by
  induction m with
  | nil => rfl
  | cons p rest ih =>
    obtain ⟨k0, v0⟩ := p
    by_cases h : k0 = k <;> simp [dictModify, h, ih]

theorem dictModify_dictModify {α : Type} (k : String) (f g : α → α) (m : List (String × α)) :
    dictModify k g (dictModify k f m) = dictModify k (fun v => g (f v)) m := by
  induction m with
  | nil => rfl
  | cons p rest ih =>
    obtain ⟨k0, v0⟩ := p
    by_cases h : k0 = k
    · subst h; simp [dictModify]
    · simp [dictModify, h, ih]

theorem foldl_dictModify {α β : Type} (k : String) (f : β → α → α) (l : List β)
    (m : List (String × α)) :
    l.foldl (fun h x => dictModify k (f x) h) m =
      dictModify k (fun v => l.foldl (fun v x => f x v) v) m := by
  induction l generalizing m with
  | nil => exact (dictModify_id k m).symm
  | cons x xs ih =>
    show xs.foldl (fun h y => dictModify k (f y) h) (dictModify k (f x) m) = _
    rw [ih, dictModify_dictModify]
    rfl

/-- `update_tender_history` in composed form: one modification of the
`ECIL` submap followed by one of the `EGPS` submap. -/
theorem update_tender_history_eq (hist : HistoryMap) (ecil_data egps_data : List Entry)
    (ts : String) :
    update_tender_history hist ecil_data egps_data ts =
      dictModify "EGPS"
        (fun v => egps_data.foldl (fun v e => dictInsert e.tender_no (egpsSnapshot e ts) v) v)
        (dictModify "ECIL"
          (fun v => ecil_data.foldl (fun v e => dictInsert e.tender_no (ecilSnapshot e ts) v) v)
          hist) := by
  unfold update_tender_history
  rw [foldl_dictModify, foldl_dictModify]

theorem dictGet_isSome_dictInsert {α : Type} (k : String) (v : α) (m : List (String × α))
    (q : String) (h : (dictGet m q).isSome) : (dictGet (dictInsert k v m) q).isSome := by
  rw [dictGet_dictInsert]
  by_cases hk : k = q <;> simp [hk, h]

theorem dictGet_isSome_foldl_insert {α β : Type} (tn : β → String) (fv : β → α) (l : List β)
    (m : List (String × α)) (q : String) (h : (dictGet m q).isSome) :
    (dictGet (l.foldl (fun v x => dictInsert (tn x) (fv x) v) m) q).isSome := by
  induction l generalizing m with
  | nil => exact h
  | cons x xs ih => exact ih _ (dictGet_isSome_dictInsert _ _ _ _ h)

theorem dictGet_foldl_insert_of_forall_ne {α β : Type} (tn : β → String) (fv : β → α)
    (l : List β) (m : List (String × α)) (q : String) (h : ∀ y ∈ l, tn y ≠ q) :
    dictGet (l.foldl (fun v x => dictInsert (tn x) (fv x) v) m) q = dictGet m q := by
  induction l generalizing m with
  | nil => rfl
  | cons x xs ih =>
    show dictGet (xs.foldl _ (dictInsert (tn x) (fv x) m)) q = _
    rw [ih _ (fun y hy => h y (List.mem_cons_of_mem _ hy)), dictGet_dictInsert,
      if_neg (h x (List.mem_cons_self _ _))]

theorem dictGet_foldl_insert_mem {α β : Type} (tn : β → String) (fv : β → α) (l : List β)
    (m : List (String × α)) (x : β) (hx : x ∈ l) (hnd : (l.map tn).Nodup) :
    dictGet (l.foldl (fun v y => dictInsert (tn y) (fv y) v) m) (tn x) = some (fv x) := by
  induction l generalizing m with
  | nil => cases hx
  | cons y ys ih =>
    rw [List.map_cons, List.nodup_cons] at hnd
    rcases List.mem_cons.mp hx with hxy | hxs
    · subst hxy
      show dictGet (ys.foldl _ (dictInsert (tn x) (fv x) m)) (tn x) = _
      rw [dictGet_foldl_insert_of_forall_ne _ _ _ _ _
          (fun z hz hc => hnd.1 (by rw [← hc]; exact List.mem_map_of_mem tn hz)),
        dictGet_dictInsert, if_pos rfl]
    · exact ih _ hxs hnd.2

/-! Classification lemmas. -/

/-- The condition under which a record is reported as a date change. -/
def changedCond (hist : TenderMap) (e : Entry) : Prop :=
  ∃ fields, dictGet hist e.tender_no = some fields ∧
    (dictGet fields "closing_date").getD "" ≠ "" ∧ e.closing_date ≠ "" ∧
    (dictGet fields "closing_date").getD "" ≠ e.closing_date

theorem dateChangeOf_eq_some (hist : TenderMap) (src : String) (e : Entry) (c : DateChange) :
    dateChangeOf hist src e = some c ↔
      ∃ fields, dictGet hist e.tender_no = some fields ∧
        ((dictGet fields "closing_date").getD "" ≠ "" ∧ e.closing_date ≠ "" ∧
         (dictGet fields "closing_date").getD "" ≠ e.closing_date) ∧
        c = ⟨e.tender_no, (dictGet fields "closing_date").getD "", e.closing_date, src,
             e.description⟩ := by
  unfold dateChangeOf
  cases hd : dictGet hist e.tender_no with
  | none => simp
  | some fields =>
    simp only [Option.some.injEq]
    constructor
    · intro h
      split_ifs at h with hc
      exact ⟨fields, rfl, hc, ((Option.some.injEq _ _).mp h).symm⟩
    · rintro ⟨fields', rfl, hc', hcv⟩
      rw [if_pos hc', hcv]

theorem mem_check_date_changes (data : List Entry) (hist : TenderMap) (src : String)
    (c : DateChange) :
    c ∈ check_date_changes data hist src ↔
      ∃ e ∈ data, dateChangeOf hist src e = some c := by
  unfold check_date_changes
  exact List.mem_filterMap

theorem dateChangeOf_source (hist : TenderMap) (src : String) (e : Entry) (c : DateChange)
    (h : dateChangeOf hist src e = some c) : c.source = src ∧ c.tender_no = e.tender_no := by
  rcases (dateChangeOf_eq_some hist src e c).mp h with ⟨fields, _, _, rfl⟩
  exact ⟨rfl, rfl⟩

theorem dateChangeOf_of_changedCond (hist : TenderMap) (src : String) (e : Entry)
    (h : changedCond hist e) :
    dateChangeOf hist src e =
      some ⟨e.tender_no,
            (dictGet ((dictGet hist e.tender_no).getD []) "closing_date").getD "",
            e.closing_date, src, e.description⟩ := by
  rcases h with ⟨fields, hf, h1, h2, h3⟩
  rw [dateChangeOf_eq_some]
  exact ⟨fields, hf, ⟨h1, h2, h3⟩, by rw [hf]; rfl⟩

/-- Membership of a record's pair in the changed-tender pair list of its
own source, given that tender numbers are unique in the crawl: the pair is
present exactly when the record itself satisfies the change condition. -/
theorem changed_pair_iff (data : List Entry) (hist : TenderMap) (src : String) (e : Entry)
    (hmem : e ∈ data) (hnd : (data.map Entry.tender_no).Nodup) :
    ((src, e.tender_no) ∈
        (check_date_changes data hist src).map fun c => (c.source, c.tender_no)) ↔
      changedCond hist e := by
  constructor
  · intro h
    rcases List.mem_map.mp h with ⟨c, hc, hpair⟩
    rcases (mem_check_date_changes data hist src c).mp hc with ⟨e', he', hco⟩
    rcases (dateChangeOf_eq_some hist src e' c).mp hco with ⟨fields, hf, hconds, rfl⟩
    have htno : e'.tender_no = e.tender_no := congrArg Prod.snd hpair
    have : e' = e := List.inj_on_of_nodup_map hnd he' hmem htno
    subst this
    exact ⟨fields, hf, hconds.1, hconds.2.1, hconds.2.2⟩
  · intro h
    refine List.mem_map.mpr ⟨⟨e.tender_no,
      (dictGet ((dictGet hist e.tender_no).getD []) "closing_date").getD "",
      e.closing_date, src, e.description⟩, ?_, rfl⟩
    exact (mem_check_date_changes data hist src _).mpr
      ⟨e, hmem, dateChangeOf_of_changedCond hist src e h⟩

/-- A pair tagged with a different source never occurs in a source's
change list. -/
theorem not_mem_changed_other (data : List Entry) (hist : TenderMap) (src src' : String)
    (t : String) (hne : src ≠ src') :
    (src, t) ∉ (check_date_changes data hist src').map fun c => (c.source, c.tender_no) := by
  intro h
  rcases List.mem_map.mp h with ⟨c, hc, hpair⟩
  rcases (mem_check_date_changes data hist src' c).mp hc with ⟨e', _, hco⟩
  have := (dateChangeOf_source hist src' e' c hco).1
  exact hne ((congrArg Prod.fst hpair).symm.trans this)

theorem statusOf_cases (hist : TenderMap) (src : String) (ch : List (String × String))
    (e : Entry) :
    statusOf hist src ch e = "NEW" ∨ statusOf hist src ch e = "DATE CHANGED" ∨
      statusOf hist src ch e = "EXISTING" := by
  unfold statusOf
  split_ifs <;> simp

/-- The classification loop's three buckets are the status filters of the
tagged crawl list, in crawl order. -/
theorem classifyLoop_eq (hist : TenderMap) (src : String) (ch : List (String × String))
    (l : List Entry) :
    classifyLoop hist src ch l =
      ((tagAll hist src ch l).filter (fun c => c.status == "NEW"),
       (tagAll hist src ch l).filter (fun c => c.status == "DATE CHANGED"),
       (tagAll hist src ch l).filter (fun c => c.status == "EXISTING")) := by
  induction l with
  | nil => rfl
  | cons e rest ih =>
    by_cases h1 : dictGet hist e.tender_no = none
    · simp [classifyLoop, tagAll, ih, statusOf, h1, List.filter_cons]
    · by_cases h2 : (src, e.tender_no) ∈ ch
      · simp [classifyLoop, tagAll, ih, statusOf, h1, h2, List.filter_cons]
      · simp [classifyLoop, tagAll, ih, statusOf, h1, h2, List.filter_cons]

/-! Aggregation lemmas. -/

theorem foldl_max_init_le (l : List Nat) (a : Nat) : a ≤ l.foldl max a := by
  induction l generalizing a with
  | nil => exact le_refl a
  | cons b t ih => exact le_trans (le_max_left a b) (ih (max a b))

theorem le_foldl_max (l : List Nat) (a x : Nat) (hx : x ∈ l) : x ≤ l.foldl max a := by
  induction l generalizing a with
  | nil => cases hx
  | cons b t ih =>
    rcases List.mem_cons.mp hx with rfl | hxt
    · exact le_trans (le_max_right a x) (foldl_max_init_le t (max a x))
    · exact ih (max a b) hxt

theorem foldl_max_attained (l : List Nat) (a : Nat) :
    l.foldl max a = a ∨ l.foldl max a ∈ l := by
  induction l generalizing a with
  | nil => exact Or.inl rfl
  | cons b t ih =>
    rw [List.foldl_cons]
    rcases ih (max a b) with h | h
    · rcases le_total a b with hab | hab
      · right
        rw [h, max_eq_right hab]
        exact List.mem_cons_self b t
      · left
        rw [h, max_eq_left hab]
    · exact Or.inr (List.mem_cons_of_mem b h)

theorem listMax_ge (l : List Nat) (x : Nat) (hx : x ∈ l) : x ≤ listMax l :=
  le_foldl_max l 0 x hx

theorem listMax_attained (l : List Nat) : listMax l = 0 ∨ listMax l ∈ l :=
  foldl_max_attained l 0

theorem flatten_blocks_get {α : Type} (g : Nat → List α) (h2 : ∀ j, (g j).length = 2)
    (js : List Nat) (i r : Nat) (hr : r < 2) :
    ((js.map g).flatten).get? (2 * i + r) = (js.get? i).bind fun j => (g j).get? r := by
  induction js generalizing i with
  | nil => simp
  | cons j t ih =>
    rw [List.map_cons, List.flatten_cons]
    cases i with
    | zero =>
      rw [Nat.mul_zero, Nat.zero_add, List.get?_append (by rw [h2 j]; exact hr)]
      rfl
    | succ i' =>
      have harith : 2 * (i' + 1) + r = (g j).length + (2 * i' + r) := by
        rw [h2 j]; ring
      rw [harith, List.get?_append_right (Nat.le_add_right _ _), Nat.add_sub_cancel_left, ih]
      rfl

theorem flatten_blocks_length {α : Type} (g : Nat → List α) (h2 : ∀ j, (g j).length = 2)
    (js : List Nat) : ((js.map g).flatten).length = 2 * js.length := by
  induction js with
  | nil => rfl
  | cons j t ih =>
    rw [List.map_cons, List.flatten_cons, List.length_append, h2 j, ih, List.length_cons]
    ring

theorem docSlots_length (max_docs : Nat) (docs : List Doc) :
    (docSlots max_docs docs).length = 2 * max_docs := by
  unfold docSlots
  rw [flatten_blocks_length _ (fun j => by cases docs.get? j <;> rfl), List.length_range]

theorem docSlots_get (max_docs : Nat) (docs : List Doc) (i : Nat) (hi : i < max_docs) :
    (docSlots max_docs docs).get? (2 * i) =
        some (((docs.get? i).map Doc.name).getD "") ∧
      (docSlots max_docs docs).get? (2 * i + 1) =
        some (((docs.get? i).map Doc.url).getD "") := by
  unfold docSlots
  constructor
  · rw [show 2 * i = 2 * i + 0 from rfl,
      flatten_blocks_get _ (fun j => by cases docs.get? j <;> rfl) _ i 0 (by omega),
      List.get?_range hi]
    cases hdoc : docs.get? i
    all_goals (rw [List.get?_eq_getElem?] at hdoc; simp [hdoc])
  · rw [flatten_blocks_get _ (fun j => by cases docs.get? j <;> rfl) _ i 1 (by omega),
      List.get?_range hi]
    cases hdoc : docs.get? i
    all_goals (rw [List.get?_eq_getElem?] at hdoc; simp [hdoc])

theorem columnsFor_get (max_docs : Nat) (i : Nat) (hi : i < max_docs) :
    (columnsFor max_docs).get? (9 + 2 * i) =
        some ("Document " ++ toString (i + 1) ++ " Name") ∧
      (columnsFor max_docs).get? (9 + 2 * i + 1) =
        some ("Document " ++ toString (i + 1) ++ " Link") := by
  unfold columnsFor
  have hb : (baseColumns).length = 9 := rfl
  constructor
  · rw [show 9 + 2 * i = baseColumns.length + (2 * i + 0) by rw [hb]; omega,
      List.get?_append_right (Nat.le_add_right _ _), Nat.add_sub_cancel_left,
      flatten_blocks_get _ (fun j => by rfl) _ i 0 (by omega), List.get?_range hi]
    rfl
  · rw [show 9 + 2 * i + 1 = baseColumns.length + (2 * i + 1) by rw [hb]; omega,
      List.get?_append_right (Nat.le_add_right _ _), Nat.add_sub_cancel_left,
      flatten_blocks_get _ (fun j => by rfl) _ i 1 (by omega), List.get?_range hi]
    rfl

theorem columnsFor_length (max_docs : Nat) :
    (columnsFor max_docs).length = 9 + 2 * max_docs := by
  unfold columnsFor
  rw [List.length_append, flatten_blocks_length _ (fun j => by rfl), List.length_range]
  rfl

theorem buildRow_length (max_docs : Nat) (ce : CEntry) :
    (buildRow max_docs ce).length = 9 + 2 * max_docs := by
  unfold buildRow
  rw [List.length_append, docSlots_length]
  rfl

theorem buildRow_get_slot (max_docs : Nat) (ce : CEntry) (i : Nat) (hi : i < max_docs) :
    (buildRow max_docs ce).get? (9 + 2 * i) =
        some (((ce.entry.docs.get? i).map Doc.name).getD "") ∧
      (buildRow max_docs ce).get? (9 + 2 * i + 1) =
        some (((ce.entry.docs.get? i).map Doc.url).getD "") := by
  unfold buildRow
  have h9 : ([ce.status, ce.src, ce.entry.tender_no, ce.entry.published_date,
      ce.entry.opening_date, ce.entry.closing_date, ce.entry.centre, ce.entry.description,
      ce.entry.link]).length = 9 := rfl
  constructor
  · rw [show 9 + 2 * i = 9 + (2 * i) from rfl, ← h9,
      List.get?_append_right (Nat.le_add_right _ _), Nat.add_sub_cancel_left]
    exact (docSlots_get max_docs ce.entry.docs i hi).1
  · rw [show 9 + 2 * i + 1 = 9 + (2 * i + 1) by ring, ← h9,
      List.get?_append_right (Nat.le_add_right _ _), Nat.add_sub_cancel_left]
    exact (docSlots_get max_docs ce.entry.docs i hi).2

/-! Deduplication lemmas. -/

theorem contains_iff_mem (l : List String) (s : String) : l.contains s = true ↔ s ∈ l := by
  simp [List.contains, List.elem_iff]

theorem foldl_dedup_nodup {β : Type} (f : List Doc → β → List Doc)
    (hf : ∀ acc b, f acc b = acc ∨
      ∃ d, d.url ∉ acc.map Doc.url ∧ f acc b = acc ++ [d])
    (l : List β) (acc : List Doc) (h : (acc.map Doc.url).Nodup) :
    ((l.foldl f acc).map Doc.url).Nodup := by
  induction l generalizing acc with
  | nil => exact h
  | cons b t ih =>
    apply ih
    rcases hf acc b with h1 | ⟨d, hd, h2⟩
    · rw [h1]; exact h
    · rw [h2, List.map_append]
      refine List.Nodup.append h (List.nodup_singleton _) ?_
      intro a ha hb
      rw [List.map_singleton, List.mem_singleton] at hb
      subst hb
      exact hd ha

theorem ecilDocStep_shape (acc : List Doc) (l : RawLink) :
    ecilDocStep acc l = acc ∨
      ∃ d, d.url ∉ acc.map Doc.url ∧ ecilDocStep acc l = acc ++ [d] := by
  unfold ecilDocStep
  dsimp only
  split_ifs with h
  · right
    simp only [Bool.and_eq_true, Bool.not_eq_true'] at h
    refine ⟨⟨ecilDocName l.text l.href, l.href⟩, ?_, rfl⟩
    intro hmem
    have hc := (contains_iff_mem (acc.map Doc.url) l.href).mpr hmem
    rw [h.2] at hc
    exact Bool.false_ne_true hc
  · exact Or.inl rfl

theorem extract_ecil_documents_nodup (links : List RawLink) :
    ((extract_ecil_documents links).map Doc.url).Nodup :=
  foldl_dedup_nodup _ ecilDocStep_shape links [] (by simp)

theorem egpsDocStep_shape (page_type : String) (acc : List Doc) (l : EgpsLink) :
    egpsDocStep page_type acc l = acc ∨
      ∃ d, d.url ∉ acc.map Doc.url ∧ egpsDocStep page_type acc l = acc ++ [d] := by
  unfold egpsDocStep
  dsimp only
  split_ifs with h1 h2
  · exact Or.inl rfl
  · right
    refine ⟨⟨egpsLabel page_type (egpsDocName l (egpsResolveUrl l)), egpsResolveUrl l⟩, ?_, rfl⟩
    intro hmem
    exact h2 ((contains_iff_mem _ _).mpr hmem)
  · exact Or.inl rfl

theorem egps_harvest_nodup (links : List EgpsLink) (page_pub page_type : String) :
    (((extract_egps_documents_and_published_date links page_pub page_type).1).map
      Doc.url).Nodup :=
  foldl_dedup_nodup _ (egpsDocStep_shape page_type) links [] (by simp)

theorem mergeDocs_step_shape (acc : List Doc) (d : Doc) :
    (if (acc.map Doc.url).contains d.url then acc else acc ++ [d]) = acc ∨
      ∃ d', d'.url ∉ acc.map Doc.url ∧
        (if (acc.map Doc.url).contains d.url then acc else acc ++ [d]) = acc ++ [d'] := by
  split_ifs with h
  · exact Or.inl rfl
  · exact Or.inr ⟨d, fun hm => h ((contains_iff_mem _ _).mpr hm), rfl⟩

theorem mergeDocs_nodup (acc incoming : List Doc) (h : (acc.map Doc.url).Nodup) :
    ((mergeDocs acc incoming).map Doc.url).Nodup :=
  foldl_dedup_nodup _ (fun a d => mergeDocs_step_shape a d) incoming acc h

theorem mergeDocs_cons (acc : List Doc) (d : Doc) (t : List Doc) :
    mergeDocs acc (d :: t) =
      if (acc.map Doc.url).contains d.url then mergeDocs acc t
      else mergeDocs (acc ++ [d]) t := by
  unfold mergeDocs
  rw [List.foldl_cons]
  split_ifs with h <;> rfl

/-- Merging appends only fresh-URL documents after the existing list, so
existing entries (and hence first-encountered names) are never replaced. -/
theorem mergeDocs_eq_append (acc incoming : List Doc) :
    ∃ extra, mergeDocs acc incoming = acc ++ extra ∧
      ∀ d ∈ extra, d ∈ incoming ∧ d.url ∉ acc.map Doc.url := by
  induction incoming generalizing acc with
  | nil => exact ⟨[], by simp [mergeDocs], by simp⟩
  | cons d t ih =>
    rw [mergeDocs_cons]
    split_ifs with hc
    · rcases ih acc with ⟨extra, heq, hp⟩
      exact ⟨extra, heq, fun x hx => ⟨List.mem_cons_of_mem d (hp x hx).1, (hp x hx).2⟩⟩
    · rcases ih (acc ++ [d]) with ⟨extra, heq, hp⟩
      refine ⟨d :: extra, by rw [heq, List.append_assoc]; rfl, ?_⟩
      intro x hx
      rcases List.mem_cons.mp hx with rfl | hx'
      · exact ⟨List.mem_cons_self x t, fun hm => hc ((contains_iff_mem _ _).mpr hm)⟩
      · refine ⟨List.mem_cons_of_mem d (hp x hx').1, fun hm => (hp x hx').2 ?_⟩
        rw [List.map_append]
        exact List.mem_append_left _ hm

/-! Scraper-output lemmas. -/

theorem filterMap_map_sublist {α β γ : Type} (f : α → Option β) (g : β → γ) (h : α → γ)
    (hfg : ∀ a b, f a = some b → g b = h a) (l : List α) :
    List.Sublist ((l.filterMap f).map g) (l.map h) := by
  induction l with
  | nil => simp
  | cons a t ih =>
    rw [List.filterMap_cons, List.map_cons]
    cases hf : f a with
    | none => exact List.Sublist.cons (h a) ih
    | some b =>
      rw [List.map_cons, hfg a b hf]
      exact List.Sublist.cons₂ (h a) ih

theorem ecilRowEntry_tender_no (r : EcilRow) (e : Entry) (h : ecilRowEntry r = some e) :
    e.tender_no = strTrim (r.cells.getD 1 "") := by
  unfold ecilRowEntry at h
  dsimp only at h
  repeat' split at h
  all_goals first
    | exact Option.noConfusion h
    | (obtain rfl := Option.some.inj h; rfl)

theorem egpsRowEntry_tender_no (r : EgpsRow) (e : Entry) (h : egpsRowEntry r = some e) :
    e.tender_no = strTrim (r.cells.getD 0 "") := by
  unfold egpsRowEntry at h
  dsimp only at h
  split at h
  · cases h
  · obtain rfl := Option.some.inj h
    rfl

theorem ecilRowEntry_docs_nodup (r : EcilRow) (e : Entry) (h : ecilRowEntry r = some e) :
    (e.docs.map Doc.url).Nodup := by
  unfold ecilRowEntry at h
  dsimp only at h
  repeat' split at h
  all_goals first
    | exact Option.noConfusion h
    | (obtain rfl := Option.some.inj h; exact extract_ecil_documents_nodup r.pdfLinks)
    | (obtain rfl := Option.some.inj h; simp)

theorem egpsRowEntry_docs_nodup (r : EgpsRow) (e : Entry) (h : egpsRowEntry r = some e) :
    (e.docs.map Doc.url).Nodup := by
  unfold egpsRowEntry at h
  dsimp only at h
  split at h
  · cases h
  · obtain rfl := Option.some.inj h
    dsimp only
    split_ifs <;>
      first
        | exact mergeDocs_nodup _ _ (mergeDocs_nodup _ _ (by simp))
        | exact mergeDocs_nodup _ _ (by simp)
        | simp

/-! Ordering and permutation lemmas for the merged dataset. -/

theorem tagAll_status_cases (hist : TenderMap) (src : String) (ch : List (String × String))
    (l : List Entry) :
    ∀ c ∈ tagAll hist src ch l,
      c.status = "NEW" ∨ c.status = "DATE CHANGED" ∨ c.status = "EXISTING" := by
  intro c hc
  rcases List.mem_map.mp hc with ⟨e, _, rfl⟩
  exact statusOf_cases hist src ch e

theorem count_status_filter_eq (l : List CEntry) (x : CEntry) (s : String)
    (h : x.status = s) :
    List.count x (l.filter (fun c => c.status == s)) = List.count x l :=
  List.count_filter (by simp [h])

theorem count_status_filter_zero (l : List CEntry) (x : CEntry) (s : String)
    (h : x.status ≠ s) :
    List.count x (l.filter (fun c => c.status == s)) = 0 :=
  List.count_eq_zero.mpr fun hm => h (by
    have hb := (List.mem_filter.mp hm).2
    simpa using hb)

theorem filter_three_perm (l : List CEntry)
    (hst : ∀ c ∈ l, c.status = "NEW" ∨ c.status = "DATE CHANGED" ∨ c.status = "EXISTING") :
    List.Perm
      (l.filter (fun c => c.status == "NEW") ++ l.filter (fun c => c.status == "DATE CHANGED")
        ++ l.filter (fun c => c.status == "EXISTING")) l := by
  rw [List.perm_iff_count]
  intro x
  simp only [List.count_append]
  by_cases hx : x ∈ l
  · rcases hst x hx with h | h | h
    · rw [count_status_filter_eq l x _ h,
        count_status_filter_zero l x "DATE CHANGED" (by rw [h]; decide),
        count_status_filter_zero l x "EXISTING" (by rw [h]; decide)]
      omega
    · rw [count_status_filter_zero l x "NEW" (by rw [h]; decide),
        count_status_filter_eq l x _ h,
        count_status_filter_zero l x "EXISTING" (by rw [h]; decide)]
      omega
    · rw [count_status_filter_zero l x "NEW" (by rw [h]; decide),
        count_status_filter_zero l x "DATE CHANGED" (by rw [h]; decide),
        count_status_filter_eq l x _ h]
      omega
  · rw [List.count_eq_zero.mpr (fun hm => hx (List.mem_filter.mp hm).1),
      List.count_eq_zero.mpr (fun hm => hx (List.mem_filter.mp hm).1),
      List.count_eq_zero.mpr (fun hm => hx (List.mem_filter.mp hm).1),
      List.count_eq_zero.mpr hx]

theorem append_six_perm (a1 b1 a2 b2 a3 b3 : List CEntry) :
    List.Perm (a1 ++ b1 ++ a2 ++ b2 ++ a3 ++ b3)
      ((a1 ++ a2 ++ a3) ++ (b1 ++ b2 ++ b3)) := by
  rw [List.perm_iff_count]
  intro x
  simp only [List.count_append]
  ring

/-- The merged dataset in filter form: within each status block the ECIL
records precede the EGPS records, and inside each group the crawl order is
that of the source list. -/
theorem combinedPipeline_eq_filters (ecil_data egps_data : List Entry)
    (histE histG : TenderMap) :
    combinedPipeline ecil_data egps_data histE histG =
      (tagAll histE "ECIL" (changedTenders ecil_data egps_data histE histG) ecil_data).filter
          (fun c => c.status == "NEW") ++
        (tagAll histG "EGPS" (changedTenders ecil_data egps_data histE histG) egps_data).filter
          (fun c => c.status == "NEW") ++
        (tagAll histE "ECIL" (changedTenders ecil_data egps_data histE histG) ecil_data).filter
          (fun c => c.status == "DATE CHANGED") ++
        (tagAll histG "EGPS" (changedTenders ecil_data egps_data histE histG) egps_data).filter
          (fun c => c.status == "DATE CHANGED") ++
        (tagAll histE "ECIL" (changedTenders ecil_data egps_data histE histG) ecil_data).filter
          (fun c => c.status == "EXISTING") ++
        (tagAll histG "EGPS" (changedTenders ecil_data egps_data histE histG) egps_data).filter
          (fun c => c.status == "EXISTING") := by
  unfold combinedPipeline
  dsimp only
  rw [classifyLoop_eq, classifyLoop_eq]

/-- The merged dataset is a permutation of the two tagged source lists. -/
theorem combinedPipeline_perm (ecil_data egps_data : List Entry) (histE histG : TenderMap) :
    List.Perm (combinedPipeline ecil_data egps_data histE histG)
      (tagAll histE "ECIL" (changedTenders ecil_data egps_data histE histG) ecil_data ++
        tagAll histG "EGPS" (changedTenders ecil_data egps_data histE histG) egps_data) := by
  rw [combinedPipeline_eq_filters]
  refine List.Perm.trans ?_
    (List.Perm.append
      (filter_three_perm _ (tagAll_status_cases histE "ECIL" _ ecil_data))
      (filter_three_perm _ (tagAll_status_cases histG "EGPS" _ egps_data)))
  have := append_six_perm
    ((tagAll histE "ECIL" (changedTenders ecil_data egps_data histE histG) ecil_data).filter
      (fun c => c.status == "NEW"))
    ((tagAll histG "EGPS" (changedTenders ecil_data egps_data histE histG) egps_data).filter
      (fun c => c.status == "NEW"))
    ((tagAll histE "ECIL" (changedTenders ecil_data egps_data histE histG) ecil_data).filter
      (fun c => c.status == "DATE CHANGED"))
    ((tagAll histG "EGPS" (changedTenders ecil_data egps_data histE histG) egps_data).filter
      (fun c => c.status == "DATE CHANGED"))
    ((tagAll histE "ECIL" (changedTenders ecil_data egps_data histE histG) ecil_data).filter
      (fun c => c.status == "EXISTING"))
    ((tagAll histG "EGPS" (changedTenders ecil_data egps_data histE histG) egps_data).filter
      (fun c => c.status == "EXISTING"))
  simpa [List.append_assoc] using this

/-- Dropping the status and source tag of the merged dataset recovers the
two crawls' records, up to the block reordering: a permutation, so every
scraped record appears exactly once. -/
theorem combinedPipeline_entries_perm (ecil_data egps_data : List Entry)
    (histE histG : TenderMap) :
    List.Perm ((combinedPipeline ecil_data egps_data histE histG).map CEntry.entry)
      (ecil_data ++ egps_data) := by
  have h := List.Perm.map CEntry.entry
    (combinedPipeline_perm ecil_data egps_data histE histG)
  rw [List.map_append] at h
  have he : (tagAll histE "ECIL" (changedTenders ecil_data egps_data histE histG)
      ecil_data).map CEntry.entry = ecil_data := by
    simp [tagAll, List.map_map, Function.comp_def]
  have hg : (tagAll histG "EGPS" (changedTenders ecil_data egps_data histE histG)
      egps_data).map CEntry.entry = egps_data := by
    simp [tagAll, List.map_map, Function.comp_def]
  rw [he, hg] at h
  exact h

theorem combinedPipeline_length (ecil_data egps_data : List Entry) (histE histG : TenderMap) :
    (combinedPipeline ecil_data egps_data histE histG).length =
      ecil_data.length + egps_data.length := by
  have h := (combinedPipeline_entries_perm ecil_data egps_data histE histG).length_eq
  rw [List.length_map, List.length_append] at h
  exact h

theorem mem_combinedPipeline_entry (ecil_data egps_data : List Entry) (histE histG : TenderMap)
    (ce : CEntry) (hce : ce ∈ combinedPipeline ecil_data egps_data histE histG) :
    ce.entry ∈ ecil_data ++ egps_data := by
  have := (combinedPipeline_entries_perm ecil_data egps_data histE histG).mem_iff.mp
    (List.mem_map_of_mem CEntry.entry hce)
  exact this

/-! Classification characterization, for C1. -/

theorem changedTenders_ecil_mem (ecil_data egps_data : List Entry) (histE histG : TenderMap)
    (t : String) :
    ("ECIL", t) ∈ changedTenders ecil_data egps_data histE histG ↔
      ("ECIL", t) ∈ (check_date_changes ecil_data histE "ECIL").map
        fun c => (c.source, c.tender_no) := by
  unfold changedTenders
  rw [List.map_append, List.mem_append]
  constructor
  · rintro (h | h)
    · exact h
    · exact absurd h (not_mem_changed_other egps_data histG "ECIL" "EGPS" t (by decide))
  · exact Or.inl

theorem changedTenders_egps_mem (ecil_data egps_data : List Entry) (histE histG : TenderMap)
    (t : String) :
    ("EGPS", t) ∈ changedTenders ecil_data egps_data histE histG ↔
      ("EGPS", t) ∈ (check_date_changes egps_data histG "EGPS").map
        fun c => (c.source, c.tender_no) := by
  unfold changedTenders
  rw [List.map_append, List.mem_append]
  constructor
  · rintro (h | h)
    · exact absurd h (not_mem_changed_other ecil_data histE "EGPS" "ECIL" t (by decide))
    · exact h
  · exact Or.inr

theorem statusOf_new_iff (hist : TenderMap) (src : String) (ch : List (String × String))
    (e : Entry) :
    statusOf hist src ch e = "NEW" ↔ dictGet hist e.tender_no = none := by
  unfold statusOf
  split_ifs <;> simp_all

theorem statusOf_changed_iff (hist : TenderMap) (src : String) (ch : List (String × String))
    (e : Entry) :
    statusOf hist src ch e = "DATE CHANGED" ↔
      dictGet hist e.tender_no ≠ none ∧ (src, e.tender_no) ∈ ch := by
  unfold statusOf
  split_ifs <;> simp_all

theorem statusOf_existing_iff (hist : TenderMap) (src : String) (ch : List (String × String))
    (e : Entry) :
    statusOf hist src ch e = "EXISTING" ↔
      dictGet hist e.tender_no ≠ none ∧ (src, e.tender_no) ∉ ch := by
  unfold statusOf
  split_ifs <;> simp_all

theorem mem_bucket_iff (hist : TenderMap) (src : String) (ch : List (String × String))
    (data : List Entry) (e : Entry) (st : String) (hmem : e ∈ data) :
    CEntry.mk st src e ∈ (tagAll hist src ch data).filter (fun c => c.status == st) ↔
      statusOf hist src ch e = st := by
  rw [List.mem_filter]
  constructor
  · rintro ⟨hm, _⟩
    rcases List.mem_map.mp hm with ⟨e', _, heq⟩
    have hent : e' = e := congrArg CEntry.entry heq
    subst hent
    exact congrArg CEntry.status heq
  · intro hs
    exact ⟨List.mem_map.mpr ⟨e, hmem, by rw [hs]⟩, by simp⟩

/-- One source's classification buckets characterised record by record,
given the change-pair membership characterisation for that source. -/
theorem classify_spec_side (data : List Entry) (hist : TenderMap) (src : String)
    (ch : List (String × String)) (e : Entry) (hmem : e ∈ data)
    (hch : (src, e.tender_no) ∈ ch ↔ changedCond hist e) :
    (CEntry.mk "NEW" src e ∈ (classifyLoop hist src ch data).1 ↔
        dictGet hist e.tender_no = none) ∧
      (CEntry.mk "DATE CHANGED" src e ∈ (classifyLoop hist src ch data).2.1 ↔
        changedCond hist e) ∧
      (CEntry.mk "EXISTING" src e ∈ (classifyLoop hist src ch data).2.2 ↔
        (dictGet hist e.tender_no ≠ none ∧ ¬ changedCond hist e)) := by
  have hpresent : changedCond hist e → dictGet hist e.tender_no ≠ none := by
    rintro ⟨fields, hf, _⟩ hnone
    rw [hf] at hnone
    cases hnone
  rw [classifyLoop_eq]
  refine ⟨?_, ?_, ?_⟩
  · rw [mem_bucket_iff hist src ch data e "NEW" hmem, statusOf_new_iff]
  · rw [mem_bucket_iff hist src ch data e "DATE CHANGED" hmem, statusOf_changed_iff]
    constructor
    · rintro ⟨_, hin⟩
      exact hch.mp hin
    · intro hcc
      exact ⟨hpresent hcc, hch.mpr hcc⟩
  · rw [mem_bucket_iff hist src ch data e "EXISTING" hmem, statusOf_existing_iff]
    constructor
    · rintro ⟨hp, hn⟩
      exact ⟨hp, fun hcc => hn (hch.mpr hcc)⟩
    · rintro ⟨hp, hn⟩
      exact ⟨hp, fun hin => hn (hch.mp hin)⟩

/-! The claim theorems. -/

/-- C1: a current record is classified NEW exactly when its tender number
is absent from its source's history map; DATE CHANGED exactly when present
with both the recorded and the current closing date non-empty and
different, the emitted change carrying the old and new dates verbatim; and
EXISTING otherwise (present, and dates equal or either empty).  Stated for
both sources over the module-level classification loops, under the data
model's invariant that tender numbers are unique within a crawl. -/
theorem c1_classification (ecil_data egps_data : List Entry) (histE histG : TenderMap)
    (e : Entry)
    (hndE : (ecil_data.map Entry.tender_no).Nodup)
    (hndG : (egps_data.map Entry.tender_no).Nodup) :
    (e ∈ ecil_data →
      (CEntry.mk "NEW" "ECIL" e ∈
          (classifyLoop histE "ECIL" (changedTenders ecil_data egps_data histE histG)
            ecil_data).1 ↔ dictGet histE e.tender_no = none) ∧
      (CEntry.mk "DATE CHANGED" "ECIL" e ∈
          (classifyLoop histE "ECIL" (changedTenders ecil_data egps_data histE histG)
            ecil_data).2.1 ↔ changedCond histE e) ∧
      (CEntry.mk "EXISTING" "ECIL" e ∈
          (classifyLoop histE "ECIL" (changedTenders ecil_data egps_data histE histG)
            ecil_data).2.2 ↔
        (dictGet histE e.tender_no ≠ none ∧ ¬ changedCond histE e)) ∧
      (changedCond histE e →
        DateChange.mk e.tender_no
            ((dictGet ((dictGet histE e.tender_no).getD []) "closing_date").getD "")
            e.closing_date "ECIL" e.description ∈
          check_date_changes ecil_data histE "ECIL")) ∧
    (e ∈ egps_data →
      (CEntry.mk "NEW" "EGPS" e ∈
          (classifyLoop histG "EGPS" (changedTenders ecil_data egps_data histE histG)
            egps_data).1 ↔ dictGet histG e.tender_no = none) ∧
      (CEntry.mk "DATE CHANGED" "EGPS" e ∈
          (classifyLoop histG "EGPS" (changedTenders ecil_data egps_data histE histG)
            egps_data).2.1 ↔ changedCond histG e) ∧
      (CEntry.mk "EXISTING" "EGPS" e ∈
          (classifyLoop histG "EGPS" (changedTenders ecil_data egps_data histE histG)
            egps_data).2.2 ↔
        (dictGet histG e.tender_no ≠ none ∧ ¬ changedCond histG e)) ∧
      (changedCond histG e →
        DateChange.mk e.tender_no
            ((dictGet ((dictGet histG e.tender_no).getD []) "closing_date").getD "")
            e.closing_date "EGPS" e.description ∈
          check_date_changes egps_data histG "EGPS")) := by
  constructor
  · intro hmem
    have hch : ("ECIL", e.tender_no) ∈ changedTenders ecil_data egps_data histE histG ↔
        changedCond histE e :=
      (changedTenders_ecil_mem ecil_data egps_data histE histG e.tender_no).trans
        (changed_pair_iff ecil_data histE "ECIL" e hmem hndE)
    rcases classify_spec_side ecil_data histE "ECIL" _ e hmem hch with ⟨h1, h2, h3⟩
    refine ⟨h1, h2, h3, fun hcc => ?_⟩
    exact (mem_check_date_changes ecil_data histE "ECIL" _).mpr
      ⟨e, hmem, dateChangeOf_of_changedCond histE "ECIL" e hcc⟩
  · intro hmem
    have hch : ("EGPS", e.tender_no) ∈ changedTenders ecil_data egps_data histE histG ↔
        changedCond histG e :=
      (changedTenders_egps_mem ecil_data egps_data histE histG e.tender_no).trans
        (changed_pair_iff egps_data histG "EGPS" e hmem hndG)
    rcases classify_spec_side egps_data histG "EGPS" _ e hmem hch with ⟨h1, h2, h3⟩
    refine ⟨h1, h2, h3, fun hcc => ?_⟩
    exact (mem_check_date_changes egps_data histG "EGPS" _).mpr
      ⟨e, hmem, dateChangeOf_of_changedCond histG "EGPS" e hcc⟩

/-- Witness for C1: Scenario A, an ECIL record `T001` whose closing date
moved from `10-01-2026` to `15-01-2026` is classified DATE CHANGED and the
change record carries both dates verbatim. -/
theorem c1_classification_witness :
    CEntry.mk "DATE CHANGED" "ECIL"
        (Entry.mk "T001" "-----" "sample tender" "15-01-2026" "" "-----" "" []) ∈
      (classifyLoop [("T001", [("closing_date", "10-01-2026")])] "ECIL"
        (changedTenders [Entry.mk "T001" "-----" "sample tender" "15-01-2026" "" "-----" "" []]
          [] [("T001", [("closing_date", "10-01-2026")])] [])
        [Entry.mk "T001" "-----" "sample tender" "15-01-2026" "" "-----" "" []]).2.1 :=
  (((c1_classification
      [Entry.mk "T001" "-----" "sample tender" "15-01-2026" "" "-----" "" []] []
      [("T001", [("closing_date", "10-01-2026")])] []
      (Entry.mk "T001" "-----" "sample tender" "15-01-2026" "" "-----" "" [])
      (by decide) (by decide)).1 (by simp)).2.1).mpr
    ⟨[("closing_date", "10-01-2026")], by decide, by decide, by decide, by decide⟩

/-- C2: the merged dataset is all NEW records first, then all DATE
CHANGED, then all EXISTING; inside each status block the ECIL records
precede the EGPS records, and inside each source group the records keep
their crawl order (each block is a filter of the tagged crawl list). -/
theorem c2_merged_ordering (ecil_data egps_data : List Entry) (histE histG : TenderMap) :
    combinedPipeline ecil_data egps_data histE histG =
      (tagAll histE "ECIL" (changedTenders ecil_data egps_data histE histG) ecil_data).filter
          (fun c => c.status == "NEW") ++
        (tagAll histG "EGPS" (changedTenders ecil_data egps_data histE histG) egps_data).filter
          (fun c => c.status == "NEW") ++
        (tagAll histE "ECIL" (changedTenders ecil_data egps_data histE histG) ecil_data).filter
          (fun c => c.status == "DATE CHANGED") ++
        (tagAll histG "EGPS" (changedTenders ecil_data egps_data histE histG) egps_data).filter
          (fun c => c.status == "DATE CHANGED") ++
        (tagAll histE "ECIL" (changedTenders ecil_data egps_data histE histG) ecil_data).filter
          (fun c => c.status == "EXISTING") ++
        (tagAll histG "EGPS" (changedTenders ecil_data egps_data histE histG) egps_data).filter
          (fun c => c.status == "EXISTING") :=
  combinedPipeline_eq_filters ecil_data egps_data histE histG

/-- C6: saving the history and loading it back yields the same history. -/
theorem c6_history_round_trip (history : HistoryMap) :
    load_tender_history (some (save_tender_history history)) = history := by
  simp [load_tender_history, save_tender_history, decHistoryMap_enc]

/-- C3 counterexample: an EGPS listing row whose identifier is the
two-character numeric token `07` (and whose description is two characters
long) is not rejected: the EGPS row loop has no identifier or description
validity filter, so the row is emitted as a record. -/
theorem c3_counterexample :
    egpsRowEntry
        (EgpsRow.mk ["07", "HQ", "ab", "01-01-2026", "02-01-2026", ""] [] [] "" [] false false)
      = some (Entry.mk "07" "HQ" "ab" "01-01-2026" "" "02-01-2026" "" []) := by
  rfl

/-- C3 (amended): an ECIL row is rejected whenever its identifier is
empty, matches a non-data marker, is a short all-numeric token, or is
below the minimum length, or its description is below the minimum length;
an EGPS row, however, is rejected exactly when it has fewer than six
cells — the EGPS loop applies no identifier or description filter. -/
theorem c3_row_filter_amended :
    (∀ r : EcilRow,
      (ecilRejectId (strTrim (r.cells.getD 1 "")) = true ∨
        (strTrim (r.cells.getD 1 "")).length < 5 ∨
        (strTrim (r.cells.getD 3 "")).length < 5) →
      ecilRowEntry r = none) ∧
    (∀ r : EgpsRow, (egpsRowEntry r).isSome ↔ 6 ≤ r.cells.length) := by
  constructor
  · intro r hrej
    unfold ecilRowEntry
    dsimp only
    by_cases h6 : r.cells.length ≥ 6
    · rw [if_pos h6]
      by_cases hrej1 : ecilRejectId (strTrim (r.cells.getD 1 "")) = true
      · rw [if_pos hrej1]
      · rw [if_neg hrej1]
        by_cases hl : (strTrim (r.cells.getD 1 "")).length < 5
        · rw [if_pos hl]
        · rw [if_neg hl]
          rcases hrej with h | h | h
          · exact absurd h hrej1
          · exact absurd h hl
          · rw [if_pos (by omega : r.cells.length > 3),
              if_pos (show (strTrim (r.cells.getD 3 "") == ""
                  || decide ((strTrim (r.cells.getD 3 "")).length < 5)) = true by
                rw [Bool.or_eq_true, decide_eq_true_eq]
                exact Or.inr h)]
    · rw [if_neg h6]
  · intro r
    unfold egpsRowEntry
    dsimp only
    by_cases h : r.cells.length < 6
    · rw [if_pos h]
      simp
      omega
    · rw [if_neg h]
      simp
      omega

/-- Witness for C3 (amended): the ECIL filter rejects the identifier
`07`, and an EGPS row with six cells passes. -/
theorem c3_row_filter_amended_witness :
    ecilRowEntry (EcilRow.mk ["x", "07", "01-01-2026", "a real description", "t", "02-01-2026"]
        "" [] false) = none ∧
    (egpsRowEntry (EgpsRow.mk ["T310", "HQ", "long description", "01-01-2026", "02-01-2026",
        ""] [] [] "" [] false false)).isSome :=
  ⟨c3_row_filter_amended.1 _ (Or.inl (by decide)),
   (c3_row_filter_amended.2 _).mpr (by decide)⟩

/-- C4: `max_docs` is the maximum document count over the records of both
sources (an upper bound that is attained unless it is zero); the column
manifest is the nine base columns followed by `Document i Name`/`Document
i Link` pairs for `i` in `1..max_docs`; and every merged record's report
row is fixed-width, `9 + 2 * max_docs` cells, with slot `i` carrying the
record's `i`-th document name and link when it exists and empty
placeholders beyond the record's actual document count. -/
theorem c4_aggregator (ecil_data egps_data : List Entry) (histE histG : TenderMap) :
    (∀ e ∈ ecil_data ++ egps_data, e.docs.length ≤ maxDocsOf ecil_data egps_data) ∧
    (maxDocsOf ecil_data egps_data = 0 ∨
      ∃ e ∈ ecil_data ++ egps_data, e.docs.length = maxDocsOf ecil_data egps_data) ∧
    (columnsFor (maxDocsOf ecil_data egps_data)).length =
      9 + 2 * maxDocsOf ecil_data egps_data ∧
    (columnsFor (maxDocsOf ecil_data egps_data)).take 9 = baseColumns ∧
    (∀ i < maxDocsOf ecil_data egps_data,
      (columnsFor (maxDocsOf ecil_data egps_data)).get? (9 + 2 * i) =
          some ("Document " ++ toString (i + 1) ++ " Name") ∧
        (columnsFor (maxDocsOf ecil_data egps_data)).get? (9 + 2 * i + 1) =
          some ("Document " ++ toString (i + 1) ++ " Link")) ∧
    (∀ ce ∈ combinedPipeline ecil_data egps_data histE histG,
      (buildRow (maxDocsOf ecil_data egps_data) ce).length =
          9 + 2 * maxDocsOf ecil_data egps_data ∧
        ce.entry.docs.length ≤ maxDocsOf ecil_data egps_data ∧
        ∀ i < maxDocsOf ecil_data egps_data,
          (buildRow (maxDocsOf ecil_data egps_data) ce).get? (9 + 2 * i) =
              some (((ce.entry.docs.get? i).map Doc.name).getD "") ∧
            (buildRow (maxDocsOf ecil_data egps_data) ce).get? (9 + 2 * i + 1) =
              some (((ce.entry.docs.get? i).map Doc.url).getD "")) := by
  have hub : ∀ e ∈ ecil_data ++ egps_data,
      e.docs.length ≤ maxDocsOf ecil_data egps_data := by
    intro e he
    rcases List.mem_append.mp he with h | h
    · exact le_trans
        (listMax_ge (ecil_data.map fun e => e.docs.length) _
          (List.mem_map_of_mem _ h))
        (le_max_left _ _)
    · exact le_trans
        (listMax_ge (egps_data.map fun e => e.docs.length) _
          (List.mem_map_of_mem _ h))
        (le_max_right _ _)
  refine ⟨hub, ?_, columnsFor_length _, rfl, fun i hi => columnsFor_get _ i hi, ?_⟩
  · rcases le_total (maxDocsOfList ecil_data) (maxDocsOfList egps_data) with hle | hle
    · rw [maxDocsOf, max_eq_right hle]
      rcases listMax_attained (egps_data.map fun e => e.docs.length) with h0 | hmem
      · exact Or.inl h0
      · rcases List.mem_map.mp hmem with ⟨e, he, hlen⟩
        exact Or.inr ⟨e, List.mem_append_right _ he, hlen⟩
    · rw [maxDocsOf, max_eq_left hle]
      rcases listMax_attained (ecil_data.map fun e => e.docs.length) with h0 | hmem
      · exact Or.inl h0
      · rcases List.mem_map.mp hmem with ⟨e, he, hlen⟩
        exact Or.inr ⟨e, List.mem_append_left _ he, hlen⟩
  · intro ce hce
    exact ⟨buildRow_length _ ce,
      hub ce.entry (mem_combinedPipeline_entry ecil_data egps_data histE histG ce hce),
      fun i hi => buildRow_get_slot _ ce i hi⟩

/-- Witness for C4: with one ECIL record carrying one document, `max_docs`
is `1`, the manifest gains the `Document 1` pair, and the record's row
carries the document in its slot. -/
theorem c4_aggregator_witness :
    (columnsFor (maxDocsOf
        [Entry.mk "T500/AB" "-----" "ten documents" "d" "p" "o" "L"
          [Doc.mk "Spec" "https://x/a.pdf"]] [])).get? 9 = some "Document 1 Name" ∧
    (buildRow (maxDocsOf
        [Entry.mk "T500/AB" "-----" "ten documents" "d" "p" "o" "L"
          [Doc.mk "Spec" "https://x/a.pdf"]] [])
      (CEntry.mk "NEW" "ECIL"
        (Entry.mk "T500/AB" "-----" "ten documents" "d" "p" "o" "L"
          [Doc.mk "Spec" "https://x/a.pdf"]))).get? 9 = some "Spec" :=
  ⟨((c4_aggregator
      [Entry.mk "T500/AB" "-----" "ten documents" "d" "p" "o" "L"
        [Doc.mk "Spec" "https://x/a.pdf"]] [] [] []).2.2.2.2.1 0 (by decide)).1,
   (((c4_aggregator
      [Entry.mk "T500/AB" "-----" "ten documents" "d" "p" "o" "L"
        [Doc.mk "Spec" "https://x/a.pdf"]] [] [] []).2.2.2.2.2
      (CEntry.mk "NEW" "ECIL"
        (Entry.mk "T500/AB" "-----" "ten documents" "d" "p" "o" "L"
          [Doc.mk "Spec" "https://x/a.pdf"]))
      (by decide)).2.2 0 (by decide)).1⟩

/-- C5: every record's document list is free of duplicate URLs: both
harvesters deduplicate by absolute URL within a call, merging into a
record's existing list deduplicates again, and merging never replaces an
existing entry, so the first-encountered name is kept. -/
theorem c5_document_dedup :
    (∀ links : List RawLink, ((extract_ecil_documents links).map Doc.url).Nodup) ∧
    (∀ (links : List EgpsLink) (page_pub page_type : String),
      (((extract_egps_documents_and_published_date links page_pub page_type).1).map
        Doc.url).Nodup) ∧
    (∀ acc incoming : List Doc, (acc.map Doc.url).Nodup →
      ((mergeDocs acc incoming).map Doc.url).Nodup) ∧
    (∀ acc incoming : List Doc, ∃ extra, mergeDocs acc incoming = acc ++ extra ∧
      ∀ d ∈ extra, d ∈ incoming ∧ d.url ∉ acc.map Doc.url) ∧
    (∀ (r : EcilRow) (e : Entry), ecilRowEntry r = some e → (e.docs.map Doc.url).Nodup) ∧
    (∀ (r : EgpsRow) (e : Entry), egpsRowEntry r = some e → (e.docs.map Doc.url).Nodup) :=
  ⟨extract_ecil_documents_nodup,
   fun links page_pub page_type => egps_harvest_nodup links page_pub page_type,
   mergeDocs_nodup,
   mergeDocs_eq_append,
   ecilRowEntry_docs_nodup,
   egpsRowEntry_docs_nodup⟩

/-- Witness for C5: Scenario C, merging a second document with the same
URL but a different name leaves a single entry with the first name. -/
theorem c5_document_dedup_witness :
    ((mergeDocs [Doc.mk "View - Spec" "https://x/a.pdf"]
        [Doc.mk "Corrigendum - Spec" "https://x/a.pdf"]).map Doc.url).Nodup :=
  c5_document_dedup.2.2.1 [Doc.mk "View - Spec" "https://x/a.pdf"]
    [Doc.mk "Corrigendum - Spec" "https://x/a.pdf"] (by simp)

/-- C7: the history file is written only by the single
`update_tender_history` call, which runs only after the report stage
succeeded (an error there leaves the file untouched, and every run's file
is either untouched or the result of exactly one update); the update
overwrites each seen tender's entry wholesale with the current snapshot
plus the fresh timestamp and never deletes an existing entry. -/
theorem c7_history_update :
    (∀ (historyFile : Option Json) (ecil_data egps_data : List Entry) (ts err : String),
      runMain historyFile ecil_data egps_data (Except.error err) ts = historyFile) ∧
    (∀ (historyFile : Option Json) (ecil_data egps_data : List Entry)
        (res : Except String Unit) (ts : String),
      runMain historyFile ecil_data egps_data res ts = historyFile ∨
        runMain historyFile ecil_data egps_data res ts =
          some (save_tender_history
            (update_tender_history (load_tender_history historyFile) ecil_data egps_data
              ts))) ∧
    (∀ (hist : HistoryMap) (ecil_data egps_data : List Entry) (ts src : String)
        (sm : TenderMap), dictGet hist src = some sm →
      ∃ sm', dictGet (update_tender_history hist ecil_data egps_data ts) src = some sm' ∧
        ∀ (tno : String) (fv : FieldMap), dictGet sm tno = some fv →
          ∃ fv', dictGet sm' tno = some fv') ∧
    (∀ (hist : HistoryMap) (ecil_data egps_data : List Entry) (ts : String) (e : Entry)
        (sm : TenderMap), (ecil_data.map Entry.tender_no).Nodup → e ∈ ecil_data →
      dictGet hist "ECIL" = some sm →
      ∃ sm', dictGet (update_tender_history hist ecil_data egps_data ts) "ECIL" = some sm' ∧
        dictGet sm' e.tender_no = some (ecilSnapshot e ts)) ∧
    (∀ (hist : HistoryMap) (ecil_data egps_data : List Entry) (ts : String) (e : Entry)
        (sm : TenderMap), (egps_data.map Entry.tender_no).Nodup → e ∈ egps_data →
      dictGet hist "EGPS" = some sm →
      ∃ sm', dictGet (update_tender_history hist ecil_data egps_data ts) "EGPS" = some sm' ∧
        dictGet sm' e.tender_no = some (egpsSnapshot e ts)) := by
  refine ⟨fun _ _ _ _ _ => rfl, ?_, ?_, ?_, ?_⟩
  · intro historyFile ecil_data egps_data res ts
    cases res with
    | error e => exact Or.inl rfl
    | ok u => exact Or.inr rfl
  · intro hist ecil_data egps_data ts src sm hsm
    rw [update_tender_history_eq]
    by_cases hG : "EGPS" = src
    · subst hG
      rw [dictGet_dictModify, if_pos rfl, dictGet_dictModify, if_neg (by decide), hsm]
      refine ⟨_, rfl, fun tno fv hfv => ?_⟩
      have hs := dictGet_isSome_foldl_insert Entry.tender_no
        (fun x => egpsSnapshot x ts) egps_data sm tno (by rw [hfv]; rfl)
      rcases Option.isSome_iff_exists.mp hs with ⟨fv', hfv'⟩
      exact ⟨fv', hfv'⟩
    · by_cases hE : "ECIL" = src
      · subst hE
        rw [dictGet_dictModify, if_neg hG, dictGet_dictModify, if_pos rfl, hsm]
        refine ⟨_, rfl, fun tno fv hfv => ?_⟩
        have hs := dictGet_isSome_foldl_insert Entry.tender_no
          (fun x => ecilSnapshot x ts) ecil_data sm tno (by rw [hfv]; rfl)
        rcases Option.isSome_iff_exists.mp hs with ⟨fv', hfv'⟩
        exact ⟨fv', hfv'⟩
      · rw [dictGet_dictModify, if_neg hG, dictGet_dictModify, if_neg hE, hsm]
        exact ⟨sm, rfl, fun tno fv hfv => ⟨fv, hfv⟩⟩
  · intro hist ecil_data egps_data ts e sm hnd hmem hsm
    rw [update_tender_history_eq, dictGet_dictModify, if_neg (by decide : ¬("EGPS" = "ECIL")),
      dictGet_dictModify, if_pos rfl, hsm]
    exact ⟨_, rfl,
      dictGet_foldl_insert_mem Entry.tender_no (fun x => ecilSnapshot x ts) ecil_data sm e
        hmem hnd⟩
  · intro hist ecil_data egps_data ts e sm hnd hmem hsm
    rw [update_tender_history_eq, dictGet_dictModify, if_pos rfl, dictGet_dictModify,
      if_neg (by decide : ¬("ECIL" = "EGPS")), hsm]
    exact ⟨_, rfl,
      dictGet_foldl_insert_mem Entry.tender_no (fun x => egpsSnapshot x ts) egps_data sm e
        hmem hnd⟩

/-- Witness for C7: updating a fresh two-source history with one ECIL
record writes exactly that record's snapshot under its tender number. -/
theorem c7_history_update_witness :
    ∃ sm', dictGet (update_tender_history [("ECIL", []), ("EGPS", [])]
        [Entry.mk "T900/X" "-----" "node desc" "05-05-2026" "" "-----" "" []] []
        "2026-02-03 04:05:06") "ECIL" = some sm' ∧
      dictGet sm'
          (Entry.mk "T900/X" "-----" "node desc" "05-05-2026" "" "-----" "" []).tender_no =
        some (ecilSnapshot
          (Entry.mk "T900/X" "-----" "node desc" "05-05-2026" "" "-----" "" [])
          "2026-02-03 04:05:06") :=
  c7_history_update.2.2.2.1 [("ECIL", []), ("EGPS", [])]
    [Entry.mk "T900/X" "-----" "node desc" "05-05-2026" "" "-----" "" []] []
    "2026-02-03 04:05:06"
    (Entry.mk "T900/X" "-----" "node desc" "05-05-2026" "" "-----" "" []) []
    (by decide) (by decide) (by decide)

/-- C8 counterexample: neither scraper deduplicates tender numbers, so a
listing presenting the same row twice yields two records with the same
tender number in the same source's output. -/
theorem c8_counterexample :
    ¬ (((scrape_egps_rows
        [EgpsRow.mk ["T001", "HQ", "full description", "01-01-2026", "02-01-2026", ""]
            [] [] "" [] false false,
         EgpsRow.mk ["T001", "HQ", "full description", "01-01-2026", "02-01-2026", ""]
            [] [] "" [] false false]).map Entry.tender_no).Nodup) := by
  decide

/-- C8 (amended): tender numbers are unique within a source's output
provided the crawled listing rows carry pairwise-distinct identifiers —
the scrapers themselves perform no deduplication, each emitted record's
tender number being the row's trimmed identifier cell. -/
theorem c8_uniqueness_amended :
    (∀ rows : List EcilRow,
      (rows.map fun r => strTrim (r.cells.getD 1 "")).Nodup →
      ((scrape_ecil_rows rows).map Entry.tender_no).Nodup) ∧
    (∀ rows : List EgpsRow,
      (rows.map fun r => strTrim (r.cells.getD 0 "")).Nodup →
      ((scrape_egps_rows rows).map Entry.tender_no).Nodup) := by
  constructor
  · intro rows h
    exact List.Nodup.sublist
      (filterMap_map_sublist ecilRowEntry Entry.tender_no _ ecilRowEntry_tender_no rows) h
  · intro rows h
    exact List.Nodup.sublist
      (filterMap_map_sublist egpsRowEntry Entry.tender_no _ egpsRowEntry_tender_no rows) h

/-- Witness for C8 (amended): two EGPS rows with distinct identifiers
yield records with distinct tender numbers. -/
theorem c8_uniqueness_amended_witness :
    ((scrape_egps_rows
        [EgpsRow.mk ["T001", "HQ", "full description one", "01-01-2026", "02-01-2026", ""]
            [] [] "" [] false false,
         EgpsRow.mk ["T002", "HQ", "full description two", "01-01-2026", "02-01-2026", ""]
            [] [] "" [] false false]).map Entry.tender_no).Nodup :=
  c8_uniqueness_amended.2
    [EgpsRow.mk ["T001", "HQ", "full description one", "01-01-2026", "02-01-2026", ""]
        [] [] "" [] false false,
     EgpsRow.mk ["T002", "HQ", "full description two", "01-01-2026", "02-01-2026", ""]
        [] [] "" [] false false]
    (by decide)

/-- C9: on every exit path of a detail-view episode (success, extractor
error, open failure, or the window never appearing) the trace ends with
only the primary window open and focused, and no state of the trace ever
has more than one secondary window; the same holds across the two
back-to-back episodes of an EGPS row. -/
theorem c9_window_discipline :
    (∀ a1 a2 a3 : Bool,
      (detailEpisode cleanState 0 1 a1 a2 a3).getLastD cleanState = cleanState ∧
      ∀ s ∈ detailEpisode cleanState 0 1 a1 a2 a3, secondaryCount s 0 ≤ 1) ∧
    (∀ a1 a2 a3 b1 b2 b3 : Bool,
      (egpsRowWindowTrace a1 a2 a3 b1 b2 b3).getLastD cleanState = cleanState ∧
      ∀ s ∈ egpsRowWindowTrace a1 a2 a3 b1 b2 b3, secondaryCount s 0 ≤ 1) := by
  decide

/-- C10: classification only prepends a status and a source label: the
merged dataset has exactly one entry per scraped record (a permutation,
hence the length is the sum of the two source lists' lengths), and each
report row carries all original record fields unchanged — the nine leading
cells are the tagged fields verbatim and the document slots carry the
record's document names and links. -/
theorem c10_frame (ecil_data egps_data : List Entry) (histE histG : TenderMap) :
    (combinedPipeline ecil_data egps_data histE histG).length =
        ecil_data.length + egps_data.length ∧
    List.Perm ((combinedPipeline ecil_data egps_data histE histG).map CEntry.entry)
        (ecil_data ++ egps_data) ∧
    ∀ ce ∈ combinedPipeline ecil_data egps_data histE histG,
      ce.entry ∈ ecil_data ++ egps_data ∧
      (buildRow (maxDocsOf ecil_data egps_data) ce).take 9 =
        [ce.status, ce.src, ce.entry.tender_no, ce.entry.published_date,
         ce.entry.opening_date, ce.entry.closing_date, ce.entry.centre,
         ce.entry.description, ce.entry.link] ∧
      ∀ i < ce.entry.docs.length,
        (buildRow (maxDocsOf ecil_data egps_data) ce).get? (9 + 2 * i) =
            (ce.entry.docs.get? i).map Doc.name ∧
          (buildRow (maxDocsOf ecil_data egps_data) ce).get? (9 + 2 * i + 1) =
            (ce.entry.docs.get? i).map Doc.url := by
  refine ⟨combinedPipeline_length ecil_data egps_data histE histG,
    combinedPipeline_entries_perm ecil_data egps_data histE histG, ?_⟩
  intro ce hce
  have hmem := mem_combinedPipeline_entry ecil_data egps_data histE histG ce hce
  have hub : ce.entry.docs.length ≤ maxDocsOf ecil_data egps_data := by
    rcases List.mem_append.mp hmem with h | h
    · exact le_trans
        (listMax_ge (ecil_data.map fun e => e.docs.length) _ (List.mem_map_of_mem _ h))
        (le_max_left _ _)
    · exact le_trans
        (listMax_ge (egps_data.map fun e => e.docs.length) _ (List.mem_map_of_mem _ h))
        (le_max_right _ _)
  refine ⟨hmem, rfl, fun i hi => ?_⟩
  have hilt : i < maxDocsOf ecil_data egps_data := lt_of_lt_of_le hi hub
  have hsg := buildRow_get_slot (maxDocsOf ecil_data egps_data) ce i hilt
  cases hd : ce.entry.docs.get? i with
  | none =>
    exfalso
    rw [List.get?_eq_none] at hd
    omega
  | some d =>
    rcases hsg with ⟨h1, h2⟩
    rw [hd] at h1 h2
    exact ⟨by rw [h1]; rfl, by rw [h2]; rfl⟩

/-- Witness for C10: the single classified record of a one-record crawl
keeps all its fields in the report row. -/
theorem c10_frame_witness :
    (buildRow
        (maxDocsOf [Entry.mk "T777/Q" "cent7" "desc7" "c7" "p7" "o7" "L7" []] [])
        (CEntry.mk "NEW" "ECIL"
          (Entry.mk "T777/Q" "cent7" "desc7" "c7" "p7" "o7" "L7" []))).take 9 =
      ["NEW", "ECIL", "T777/Q", "p7", "o7", "c7", "cent7", "desc7", "L7"] :=
  ((c10_frame [Entry.mk "T777/Q" "cent7" "desc7" "c7" "p7" "o7" "L7" []] [] [] []).2.2
    (CEntry.mk "NEW" "ECIL" (Entry.mk "T777/Q" "cent7" "desc7" "c7" "p7" "o7" "L7" []))
    (by decide)).2.1

end TenderApp
